import Mathlib

/-!
Verification of the trinity-tools asset pipeline (Go sources under
internal/assets and the baseline builder).  Go strings are byte slices;
we embed them as `List Nat` (one element per byte, ASCII in all inputs
the tool handles).  Go maps are embedded as association lists.
-/

set_option maxRecDepth 10000

/-- A Go string, as its byte sequence. -/
abbrev Str := List Nat

/-- Convenience: the byte sequence of an ASCII Lean string literal. -/
def s2b (s : String) : Str := s.data.map (fun c => c.toNat)

/-- One byte of `strings.ToLower` (ASCII range, the only range the tool meets). -/
def lowChar (c : Nat) : Nat := if 65 ≤ c ∧ c ≤ 90 then c + 32 else c

/-- Embedding of `strings.ToLower`. -/
def toLower (s : Str) : Str := s.map lowChar

/-- Embedding of `strings.HasPrefix p` applied to `s` (argument order: pattern, subject). -/
def strStartsWith (s p : Str) : Bool := p.isPrefixOf s

/-- Embedding of `strings.HasSuffix`. -/
def strHasSuffix (s p : Str) : Bool := p.isSuffixOf s

/-- Association-list lookup, embedding a Go map read `m[k]`. -/
def alook {α : Type} (m : List (Str × α)) (k : Str) : Option α :=
  (m.find? (fun p => p.1 == k)).map (fun p => p.2)

/-- Set-insert into a need-set, embedding `needed[path] = true`. -/
def insertSet (p : Str) (s : List Str) : List Str :=
  if s.contains p then s else p :: s

/- ## The demo message reader.

Modelled from the spec: the bit-level protocol reader (`MsgReader` with
`NewMsgReader`, `ReadBits`, `ReadByte`, `ReadShort`, `ReadLong`,
`ReadData`, `Remaining`) is used by the replay decoder but its source is
not part of this repository snapshot.  Per the spec it is a cursor over
the frame's bytes exposing bit reads (position, remaining bytes); we
model the stream as a list of bits (least-significant bit of each byte
first) with a read position.  `Remaining` counts whole unread bytes. -/
structure MsgReader where
  data : List Bool
  pos : Nat
deriving Repr, DecidableEq

/-- The bit at absolute position `i` (false past the end). -/
def bitAt (m : MsgReader) (i : Nat) : Bool := m.data.getD i false

/-- Value of `n` bits starting at `pos`, least-significant first. -/
def bitsVal (data : List Bool) (pos : Nat) : Nat → Nat
  | 0 => 0
  | n + 1 => (if data.getD pos false then 1 else 0) + 2 * bitsVal data (pos + 1) n

/-- Modelled from the spec: `ReadBits(n)`. -/
def readBits (m : MsgReader) (n : Nat) : Nat × MsgReader :=
  (bitsVal m.data m.pos n, ⟨m.data, m.pos + n⟩)

/-- Modelled from the spec: `ReadByte()`. -/
def readByte (m : MsgReader) : Nat × MsgReader := readBits m 8

/-- Modelled from the spec: `ReadShort()` (16 bits, sign-extended to a Go int). -/
def readShort (m : MsgReader) : Int × MsgReader :=
  let r := readBits m 16
  (if r.1 < 32768 then (r.1 : Int) else (r.1 : Int) - 65536, r.2)

/-- Modelled from the spec: `ReadLong()` (32 bits). -/
def readLong (m : MsgReader) : Nat × MsgReader := readBits m 32

/-- Modelled from the spec: `ReadData(n)` reads `n` bytes. -/
def readData (m : MsgReader) : Nat → List Nat × MsgReader
  | 0 => ([], m)
  | n + 1 =>
    let b := readByte m
    let rest := readData b.2 n
    (b.1 :: rest.1, rest.2)

/-- Modelled from the spec: `Remaining()`, whole unread bytes. -/
def remaining (m : MsgReader) : Nat := (m.data.length - m.pos) / 8

/- ## Q3 network constants and field tables (texture.go). -/

def maxGentities : Nat := 1024

def gentitynumBits : Nat := 10

def maxClients : Nat := 64

def floatIntBits : Nat := 13

def maxStats : Nat := 16

def maxPersistant : Nat := 16

def maxWeapons : Nat := 16

def maxPowerups : Nat := 16

def numEntityFields : Nat := 51

def numPlayerFields : Nat := 48

/-- Bit width per entityState netField, `entityFieldBits` (0 = float). -/
def entityFieldBits : List Int :=
  [32, 0, 0, 0, 0, 0, 0, 0, 0,
   10, 0, 8, 8, 8, 8,
   10, 8, 19, 10, 8, 8, 0,
   32, 8, 0, 0, 0, 24, 16,
   8, 10, 8, 8,
   0, 0, 0, 8, 0,
   32, 32, 32,
   0, 0, 0, 0,
   32, 0, 0, 0, 32, 16]

/-- Bit width per playerState netField, `playerFieldBits` (0 = float, negative = signed). -/
def playerFieldBits : List Int :=
  [32, 0, 0, 8, 0, 0, 0, 0,
   -16, 0, 0, 8, -16, 16,
   8, 4, 8, 8, 8, 16,
   10, 4, 16, 10, 16, 16, 16,
   8, -8, 8, 8, 8, 8, 8,
   8, 16, 16, 12, 8, 8,
   8, 5, 0, 0, 0, 0, 10, 16]

/- ## Delta skip routines (texture.go `skipEntityDelta` / `skipPlayerDelta`). -/

/-- Body of one present entity field in `skipEntityDelta` (after the
field-present bit): zero-value check, then float (13/32 selector) or
integer of the declared width. -/
def entityFieldBody (w : Int) (m : MsgReader) : MsgReader :=
  if w = 0 then
    let z := readBits m 1
    if z.1 = 0 then z.2
    else
      let f := readBits z.2 1
      if f.1 = 0 then (readBits f.2 floatIntBits).2 else (readBits f.2 32).2
  else
    let z := readBits m 1
    if z.1 = 0 then z.2 else (readBits z.2 w.toNat).2

/-- The field loop of `skipEntityDelta`: for each of `n` fields starting
at index `i`, a field-present bit gating the field body. -/
def skipEntityFields (i : Nat) : Nat → MsgReader → MsgReader
  | 0, m => m
  | n + 1, m =>
    let p := readBits m 1
    if p.1 = 0 then skipEntityFields (i + 1) n p.2
    else skipEntityFields (i + 1) n (entityFieldBody (entityFieldBits.getD i 0) p.2)

/-- Embedding of `skipEntityDelta`. -/
def skipEntityDelta (m : MsgReader) : MsgReader :=
  let r := readBits m 1
  if r.1 = 1 then r.2
  else
    let d := readBits r.2 1
    if d.1 = 0 then d.2
    else
      let lc := readByte d.2
      if lc.1 > numEntityFields then lc.2
      else skipEntityFields 0 lc.1 lc.2

/-- Body of one present player field in `skipPlayerDelta`: no zero-value
check; float fields read the 13/32 selector, integer fields their
absolute declared width. -/
def playerFieldBody (w : Int) (m : MsgReader) : MsgReader :=
  if w.natAbs = 0 then
    let f := readBits m 1
    if f.1 = 0 then (readBits f.2 floatIntBits).2 else (readBits f.2 32).2
  else (readBits m w.natAbs).2

/-- The field loop of `skipPlayerDelta`. -/
def skipPlayerFields (i : Nat) : Nat → MsgReader → MsgReader
  | 0, m => m
  | n + 1, m =>
    let p := readBits m 1
    if p.1 = 0 then skipPlayerFields (i + 1) n p.2
    else skipPlayerFields (i + 1) n (playerFieldBody (playerFieldBits.getD i 0) p.2)

/-- One optional array block of `skipPlayerDelta`: a presence bit, then a
`slots`-wide bitmask, then `valBits` per set slot. -/
def skipSlots (mask : Nat) (valBits : Nat) (i : Nat) : Nat → MsgReader → MsgReader
  | 0, m => m
  | n + 1, m =>
    if mask &&& (1 <<< i) ≠ 0 then skipSlots mask valBits (i + 1) n (readBits m valBits).2
    else skipSlots mask valBits (i + 1) n m

def arrayBlock (slots valBits : Nat) (m : MsgReader) : MsgReader :=
  let g := readBits m 1
  if g.1 = 0 then g.2
  else
    let b := readBits g.2 slots
    skipSlots b.1 valBits 0 slots b.2

/-- Embedding of `skipPlayerDelta`. -/
def skipPlayerDelta (m : MsgReader) : MsgReader :=
  let lc := readByte m
  if lc.1 > numPlayerFields then lc.2
  else
    let m2 := skipPlayerFields 0 lc.1 lc.2
    let a := readBits m2 1
    if a.1 = 0 then a.2
    else
      arrayBlock maxPowerups 32
        (arrayBlock maxWeapons 16
          (arrayBlock maxPersistant 16
            (arrayBlock maxStats 16 a.2)))

/- ## Spec-side description of per-field bit consumption (for claim C1).

These two definitions follow the specification's words, to be compared
with the source-derived skip routines: an entity field always spends one
zero-flag bit and, only when the value is explicit, its value bits (for
a float a second selector bit then 13 or 32 bits, for an integer its
declared width); a player field has no zero-value gate and always spends
its declared width (|w| bits for an integer, a selector bit then 13 or
32 bits for a float). -/
def entityFieldCostSpec (w : Int) (m : MsgReader) : Nat :=
  1 + (if bitAt m m.pos = false then 0
       else if w = 0 then 1 + (if bitAt m (m.pos + 1) = true then 32 else 13)
       else w.toNat)

def playerFieldCostSpec (w : Int) (m : MsgReader) : Nat :=
  if w.natAbs = 0 then 1 + (if bitAt m m.pos = true then 32 else 13) else w.natAbs

/-- Bits of `v` in `w` positions, least-significant first (test helper). -/
def natBits : Nat → Nat → List Bool
  | 0, _ => []
  | n + 1, v => (v % 2 == 1) :: natBits n (v / 2)

def c9entBits : List Bool := [false, true] ++ natBits 8 52

def c9plyBits : List Bool := natBits 8 49

/- ## Frame parsing (texture.go `parseOneFrame` / `parseFrameConfigstrings`). -/

def csMax : Nat := 1024

/-- The configstring table: Go `map[int]string`, values as byte strings. -/
abbrev CSMap := List (Int × List Nat)

/-- Embedding of `configstrings[csIndex] = string(csData)`. -/
def csSet (cs : CSMap) (k : Int) (v : List Nat) : CSMap :=
  (k, v) :: cs.filter (fun p => p.1 != k)

/-- The configstring-update loop of `parseOneFrame`: each update is
`(i16 index, i16 length, bytes)`; only lengths in (0, 8192) read and
store their data. -/
def csUpdateLoop : Nat → MsgReader → CSMap → MsgReader × CSMap
  | 0, m, cs => (m, cs)
  | n + 1, m, cs =>
    let ix := readShort m
    let ln := readShort ix.2
    if 0 < ln.1 ∧ ln.1 < 8192 then
      let d := readData ln.2 ln.1.toNat
      csUpdateLoop n d.2 (csSet cs ix.1 d.1)
    else csUpdateLoop n ln.2 cs

/-- The entity-delta loop of `parseOneFrame`: read 10-bit entity numbers
until the end marker, abandoning the frame when fewer than two bytes
remain.  The Go loop is unbounded; the fuel argument is only a
termination device, and `entitySkipLoop_fuel` below shows any fuel above
`data.length / 10 + 1` — in particular the `frame.length + 1` used by
`parseOneFrame` — gives the same result as every larger fuel. -/
def entitySkipLoop : Nat → MsgReader → Option MsgReader
  | 0, _ => none
  | fuel + 1, m =>
    let e := readBits m gentitynumBits
    if e.1 = maxGentities - 1 then some e.2
    else if remaining e.2 < 2 then none
    else entitySkipLoop fuel (skipEntityDelta e.2)

/-- The player-delta loop of `parseOneFrame`: for each of the 64 client
slots whose presence bit is set in the bitmask bytes, an 8-bit client
number then one player-state delta. -/
def playerSkipLoop (pb : List Nat) (i : Nat) : Nat → MsgReader → MsgReader
  | 0, m => m
  | n + 1, m =>
    if pb.getD (i / 8) 0 &&& (1 <<< (i % 8)) = 0 then playerSkipLoop pb (i + 1) n m
    else playerSkipLoop pb (i + 1) n (skipPlayerDelta (readByte m).2)

/-- Embedding of `parseOneFrame`. -/
def parseOneFrame (frame : List Bool) (configstrings : CSMap) : Int × CSMap :=
  let m0 : MsgReader := ⟨frame, 0⟩
  let m1 := (readLong m0).2
  let m2 := (readData m1 (maxGentities / 8)).2
  match entitySkipLoop (frame.length + 1) m2 with
  | none => (0, configstrings)
  | some m3 =>
    let pb := readData m3 (maxClients / 8)
    let m4 := playerSkipLoop pb.1 0 maxClients pb.2
    let cc := readShort m4
    if cc.1 < 0 ∨ cc.1 > (csMax : Int) then (0, configstrings)
    else
      let r := csUpdateLoop cc.1.toNat cc.2 configstrings
      (cc.1, r.2)

/-- Little-endian 32-bit read from a byte sequence. -/
def u32le (b : List Nat) (off : Nat) : Nat :=
  b.getD off 0 + 256 * b.getD (off + 1) 0 + 65536 * b.getD (off + 2) 0 +
    16777216 * b.getD (off + 3) 0

/-- A byte sequence as a bit stream, least-significant bit of each byte first. -/
def bytesToBits (bs : List Nat) : List Bool := (bs.map (natBits 8)).flatten

/-- The frame walk of `parseFrameConfigstrings` over the decompressed
stream: a 4-byte raw length prefix, then the frame body; a zero length
or a length past the end of the buffer ends the stream.  Each iteration
advances by at least five bytes, so fuel `buf.length` suffices. -/
def frameWalk : Nat → List Nat → Nat → CSMap → CSMap
  | 0, _, _, cs => cs
  | fuel + 1, buf, pos, cs =>
    if pos + 4 ≤ buf.length then
      let frameSize := u32le buf pos
      if frameSize = 0 ∨ pos + 4 + frameSize > buf.length then cs
      else
        let frameData := (buf.drop (pos + 4)).take frameSize
        let cs2 := (parseOneFrame (bytesToBits frameData) cs).2
        frameWalk fuel buf (pos + 4 + frameSize) cs2
    else cs

/-- Embedding of the decompressed part of `parseFrameConfigstrings`. -/
def parseFrameConfigstrings (decompressed : List Nat) (cs : CSMap) : CSMap :=
  frameWalk decompressed.length decompressed 0 cs

/-- A concrete frame: no entities, no players, then two declared
string-table updates, the first with index 5 and length 0 (outside
[1, 8191]), the second with index 6, length 1 and value byte 65. -/
def c2frame : List Bool :=
  List.replicate 32 false ++ List.replicate 1024 false ++ List.replicate 10 true ++
    List.replicate 64 false ++ natBits 16 2 ++ natBits 16 5 ++ natBits 16 0 ++
    natBits 16 6 ++ natBits 16 1 ++ natBits 8 65

def c2wBits : List Bool := natBits 32 0

def c2wBuf : List Nat := [1, 0, 0, 0, 0]

/- ## Baseline classification (baseline builder, `isBaselineFile`). -/

/-- Prefix whitelist for baseline pk3 files (`baselinePrefixes`). -/
def baselinePrefixes : List Str :=
  [s2b "gfx/", s2b "sprites/", s2b "icons/", s2b "fonts/", s2b "menu/", s2b "ui/",
   s2b "botfiles/", s2b "models/weapons/", s2b "models/weapons2/", s2b "models/weaphits/",
   s2b "models/powerups/", s2b "models/mapobjects/", s2b "models/flags/", s2b "models/ammo/",
   s2b "models/gibs/", s2b "models/misc/", s2b "sound/", s2b "scripts/", s2b "vm/",
   s2b "textures/sfx/", s2b "textures/effects/", s2b "textures/sfx2/", s2b "textures/effects2/",
   s2b "textures/ctf2/", s2b "team_icon/", s2b "models/players/"]

/-- Prefixes explicitly excluded from baseline (`baselineExcludePrefixes`). -/
def baselineExcludePrefixes : List Str :=
  [s2b "textures/", s2b "maps/", s2b "env/", s2b "levelshots/", s2b "demos/",
   s2b "video/", s2b "music/", s2b "models/players/"]

/-- Embedding of `isBaselineFile`: includes first, then excludes, then
the root-level `.cfg` rule, else map-specific. -/
def isBaselineFile (lowerPath : Str) : Bool :=
  if baselinePrefixes.any (fun p => strStartsWith lowerPath p) then true
  else if baselineExcludePrefixes.any (fun p => strStartsWith lowerPath p) then false
  else if !(lowerPath.contains 47) && strHasSuffix lowerPath (s2b ".cfg") then true
  else false

/- ## Archive indexing (texture.go `BuildFileIndex`). -/

/-- One zip entry, with the two fields `BuildFileIndex` consults. -/
structure PkEntry where
  name : Str
  isDir : Bool

/-- One opened pk3 archive: its path and its entries. -/
structure Pk3 where
  path : Str
  entries : List PkEntry

/-- Go map assignment `index[k] = v`. -/
def mapSet (m : List (Str × Str)) (k v : Str) : List (Str × Str) :=
  (k, v) :: m.filter (fun p => p.1 != k)

/-- The inner loop of `BuildFileIndex`: record every non-directory
entry of one archive under its lowercased name. -/
def addPk3 (index : List (Str × Str)) (a : Pk3) : List (Str × Str) :=
  a.entries.foldl (fun ix e => if e.isDir then ix else mapSet ix (toLower e.name) a.path) index

/-- Embedding of `BuildFileIndex` (archive opening elided: archives are
passed already listed). -/
def buildFileIndex (pk3s : List Pk3) : List (Str × Str) :=
  pk3s.foldl addPk3 []

/-- Whether an archive has a non-directory entry matching `k`
case-insensitively (for the statement of C4). -/
def pk3Contains (a : Pk3) (k : Str) : Bool :=
  a.entries.any (fun e => !e.isDir && toLower e.name == k)

/- ## Binary decoders (bsp.go `ParseBSP`, md3.go `ParseMD3Shaders`).

`io.ReaderAt` reads are embedded as bounds-checked slices: a read whose
end passes the declared buffer length yields `none`, which the parsers
turn into a structural error, mirroring `ReadAt` returning an error. -/

def bspHeaderSize : Nat := 8 + 17 * 8

def bspShaderSize : Nat := 72

def md3HeaderSize : Nat := 108

def md3ShaderSize : Nat := 68

/-- Bounds-checked `ReadAt`. -/
def readAt (data : List Nat) (off len : Nat) : Option (List Nat) :=
  if off + len ≤ data.length then some ((data.drop off).take len) else none

/-- Signed reinterpretation of a 32-bit little-endian value (`int32(...)`). -/
def i32ofU32 (v : Nat) : Int := if v < 2147483648 then (v : Int) else (v : Int) - 4294967296

/-- Embedding of `readNullTerminated`. -/
def readNullTerminatedB (b : Str) : Str := b.takeWhile (fun c => c != 0)

/-- Embedding of `strings.ReplaceAll` from backslash to slash on byte strings. -/
def slashNormalize (s : Str) : Str := s.map (fun c => if c == 92 then 47 else c)

/-- Go `unicode` whitespace bytes relevant to ASCII input
(`strings.TrimSpace` / `strings.Fields`). -/
def isSpaceByte (c : Nat) : Bool :=
  c == 32 || c == 9 || c == 10 || c == 11 || c == 12 || c == 13

/-- Embedding of `strings.TrimSpace` (ASCII). -/
def trimSpaceB (s : Str) : Str :=
  ((s.dropWhile isSpaceByte).reverse.dropWhile isSpaceByte).reverse

/-- Embedding of `strings.Fields` (ASCII): whitespace-separated tokens. -/
def fieldsB (s : Str) : List Str :=
  ((s.splitOn 32).flatMap (fun t => t.splitOn 9)).filter (fun t => t != []) |>.flatMap
    (fun t => (t.splitOn 10).filter (fun u => u != []))

/-- Asset references extracted from a BSP file. -/
structure BSPAssets where
  shaders : List Str
  music : List Str
  sounds : List Str
  models : List Str
deriving Repr, DecidableEq

/-- Embedding of `parseEntityKV`: the two quoted strings of a
`"key" "value"` line. -/
def parseEntityKV (line : Str) : Str × Str :=
  match line.findIdx? (fun c => c == 34) with
  | none => ([], [])
  | some i =>
    let after1 := line.drop (i + 1)
    match after1.findIdx? (fun c => c == 34) with
    | none => ([], [])
    | some j =>
      let key := after1.take j
      let rest := line.drop (i + 1 + j + 1)
      match rest.findIdx? (fun c => c == 34) with
      | none => (key, [])
      | some i2 =>
        let after2 := rest.drop (i2 + 1)
        match after2.findIdx? (fun c => c == 34) with
        | none => (key, [])
        | some j2 => (key, after2.take j2)

/-- One line of `parseEntities`: skip blanks and braces, parse the
key/value pair, normalize backslashes, and record `music` / `noise` /
`model2` references. -/
def entLineStep (assets : BSPAssets) (line0 : Str) : BSPAssets :=
  let line := trimSpaceB line0
  if line == [] || line == [123] || line == [125] then assets
  else
    let kv := parseEntityKV line
    if kv.1 == [] then assets
    else
      let value := slashNormalize kv.2
      let key := toLower kv.1
      if key == s2b "music" then
        match fieldsB value with
        | [] => assets
        | p0 :: _ =>
          if p0 != [] then { assets with music := assets.music ++ [p0] } else assets
      else if key == s2b "noise" then
        if value != [] && !(strStartsWith value (s2b "*")) then
          { assets with sounds := assets.sounds ++ [value] }
        else assets
      else if key == s2b "model2" then
        if value != [] && !(strStartsWith value (s2b "*")) then
          { assets with models := assets.models ++ [value] }
        else assets
      else assets

/-- Embedding of `parseEntities`: split the entity text block into
lines and process each. -/
def parseEntities (text : Str) (assets : BSPAssets) : BSPAssets :=
  (text.splitOn 10).foldl entLineStep assets

/-- The shader-lump loop of `ParseBSP`: each 72-byte record starts with
a 64-byte null-terminated name. -/
def bspShaderLoop (shaderData : Str) (i : Nat) : Nat → BSPAssets → BSPAssets
  | 0, assets => assets
  | n + 1, assets =>
    let nameBytes := (shaderData.drop (i * bspShaderSize)).take 64
    let name := slashNormalize (readNullTerminatedB nameBytes)
    let assets2 :=
      if name != [] && !(strStartsWith name (s2b "*")) then
        { assets with shaders := assets.shaders ++ [name] }
      else assets
    bspShaderLoop shaderData (i + 1) n assets2

/-- The entities-lump step of `ParseBSP`: read and parse the entity
text block when its declared length is positive. -/
def bspEntStep (data : List Nat) (entOffset entLength : Nat) : Except Str BSPAssets :=
  if entLength > 0 then
    match readAt data entOffset entLength with
    | none => .error (s2b "read entities lump")
    | some entData => .ok (parseEntities entData ⟨[], [], [], []⟩)
  else .ok ⟨[], [], [], []⟩

/-- The shader-lump step of `ParseBSP`: read the lump and walk its
72-byte records when it holds at least one. -/
def bspShaderStep (data : List Nat) (shaderOffset shaderLength : Nat) (assets0 : BSPAssets) :
    Except Str BSPAssets :=
  if shaderLength / bspShaderSize > 0 then
    match readAt data shaderOffset shaderLength with
    | none => .error (s2b "read shaders lump")
    | some shaderData => .ok (bspShaderLoop shaderData 0 (shaderLength / bspShaderSize) assets0)
  else .ok assets0

/-- Embedding of `ParseBSP`. -/
def parseBSP (data : List Nat) : Except Str BSPAssets :=
  if data.length < bspHeaderSize then .error (s2b "BSP too small")
  else
    match readAt data 0 bspHeaderSize with
    | none => .error (s2b "read BSP header")
    | some header =>
      if header.take 4 != s2b "IBSP" then .error (s2b "invalid BSP magic")
      else if u32le header 4 != 46 then .error (s2b "unsupported BSP version")
      else
        match bspEntStep data (u32le header 8) (u32le header 12) with
        | .error e => .error e
        | .ok assets0 => bspShaderStep data (u32le header 16) (u32le header 20) assets0

/-- The shader-entry loop of one MD3 surface: 68-byte records,
bounds-checked with `break`, deduplicated across the whole model. -/
def md3ShaderEntries (data : List Nat) (surfaceOfs ofsShaders : Nat) (j : Nat) :
    Nat → List Str → List Str → List Str × List Str
  | 0, seen, shaders => (seen, shaders)
  | n + 1, seen, shaders =>
    let shaderOfs := surfaceOfs + ofsShaders + j * md3ShaderSize
    if shaderOfs + md3ShaderSize > data.length then (seen, shaders)
    else
      match readAt data shaderOfs md3ShaderSize with
      | none => (seen, shaders)
      | some shaderData =>
        let name := slashNormalize (readNullTerminatedB (shaderData.take 64))
        if name != [] && !(seen.contains name) then
          md3ShaderEntries data surfaceOfs ofsShaders (j + 1) n (name :: seen) (shaders ++ [name])
        else md3ShaderEntries data surfaceOfs ofsShaders (j + 1) n seen shaders

/-- The surface walk of `ParseMD3Shaders`: magic-tagged variable-size
surfaces advanced by their trailing `ofsEnd` field; a surface header
that would pass the buffer ends the walk (`break`). -/
def md3SurfaceLoop (data : List Nat) : Nat → Nat → List Str → List Str → Except Str (List Str)
  | 0, _, _, shaders => .ok shaders
  | n + 1, surfaceOfs, seen, shaders =>
    if surfaceOfs + 12 * 4 + 64 + 4 > data.length then .ok shaders
    else
      match readAt data surfaceOfs (12 * 4 + 64 + 4) with
      | none => .error (s2b "read MD3 surface header")
      | some surfHeader =>
        if surfHeader.take 4 != s2b "IDP3" then .error (s2b "invalid MD3 surface magic")
        else
          let numShaders := i32ofU32 (u32le surfHeader 72)
          let ofsShaders := u32le surfHeader 88
          let ofsEnd := u32le surfHeader 104
          let r := md3ShaderEntries data surfaceOfs ofsShaders 0 numShaders.toNat seen shaders
          md3SurfaceLoop data n (surfaceOfs + ofsEnd) r.1 r.2

/-- Embedding of `ParseMD3Shaders`. -/
def parseMD3Shaders (data : List Nat) : Except Str (List Str) :=
  if data.length < md3HeaderSize then .error (s2b "MD3 too small")
  else
    match readAt data 0 md3HeaderSize with
    | none => .error (s2b "read MD3 header")
    | some header =>
      if header.take 4 != s2b "IDP3" then .error (s2b "invalid MD3 magic")
      else if i32ofU32 (u32le header 4) != 15 then .error (s2b "unsupported MD3 version")
      else
        let numSurfaces := i32ofU32 (u32le header 76)
        let ofsSurfaces := u32le header 96
        md3SurfaceLoop data numSurfaces.toNat ofsSurfaces [] []

/-- A minimal well-formed BSP: correct magic and version, all 17 lumps
empty. -/
def validBSP : List Nat := s2b "IBSP" ++ [46, 0, 0, 0] ++ List.replicate 136 0

/-- A minimal well-formed MD3: correct magic and version, zero
surfaces. -/
def validMD3 : List Nat := s2b "IDP3" ++ [15, 0, 0, 0] ++ List.replicate 100 0

/-- An MD3 whose header is valid but which declares one surface at
offset 200, past its 108-byte length. -/
def truncMD3 : List Nat :=
  s2b "IDP3" ++ [15, 0, 0, 0] ++ List.replicate 68 0 ++ [1, 0, 0, 0] ++
    List.replicate 16 0 ++ [200, 0, 0, 0] ++ List.replicate 8 0

/- ## Texture resolution and the per-map need set (texture.go
`ResolveTexture`, mappak.go `BuildMapPak`).

Archive file reads (`ReadFileFromPk3`) are abstracted as a function
`content : pk3 path → entry path → Option bytes`; `none` models a
missing entry or read error. -/

/-- The manifest data one game carries (`GameManifest`). -/
structure GameManifest where
  fileIndex : List (Str × Str)
  baselineFiles : List Str
  shaders : List (Str × List Str)
  shaderFiles : List (Str × Str)

/-- The Q3 texture search order, `textureExtensions`. -/
def textureExtensions : List Str := [s2b ".tga", s2b ".jpg", s2b ".png"]

/-- Embedding of `resolveWithExtensions`. -/
def resolveWithExtensions (base : Str) (fileIndex : List (Str × Str)) : Option Str :=
  textureExtensions.findSome? (fun ext =>
    if (alook fileIndex (base ++ ext)).isSome then some (base ++ ext) else none)

/-- Embedding of `ResolveTexture`. -/
def resolveTexture (path : Str) (fileIndex : List (Str × Str)) : Option Str :=
  match textureExtensions.find? (fun ext => strHasSuffix (toLower path) ext) with
  | some ext =>
    if (alook fileIndex (toLower path)).isSome then some (toLower path)
    else resolveWithExtensions ((toLower path).take ((toLower path).length - ext.length)) fileIndex
  | none => resolveWithExtensions (toLower path) fileIndex

/-- Embedding of `readFileFromIndex`. -/
def readFileFromIndex (path : Str) (fileIndex : List (Str × Str))
    (content : Str → Str → Option (List Nat)) : Option (List Nat) :=
  match alook fileIndex (toLower path) with
  | none => none
  | some pk3 => content pk3 (toLower path)

/-- One texture reference of a shader definition: resolve it and, when
found, add it to the need set. -/
def resolveStep (gm : GameManifest) (acc : List Str) (tex : Str) : List Str :=
  match resolveTexture tex gm.fileIndex with
  | some r => insertSet r acc
  | none => acc

/-- The implicit-texture rule: a shader definition with no texture
references uses its own (lowercased) name as a single texture, resolved
like a direct texture path. -/
def insertImplicit (gm : GameManifest) (lower : Str) (textures : List Str)
    (n1 : List Str) : List Str :=
  if textures.isEmpty then
    match resolveTexture lower gm.fileIndex with
    | some r => insertSet r n1
    | none => n1
  else n1

/-- Include the .shader script file that defined the shader. -/
def insertShaderFile (gm : GameManifest) (lower : Str) (n2 : List Str) : List Str :=
  match alook gm.shaderFiles lower with
  | some scriptPath => insertSet scriptPath n2
  | none => n2

/-- Embedding of `resolveShaderTextures`. -/
def resolveShaderTextures (shaderName : Str) (gm : GameManifest) (needed : List Str) :
    List Str :=
  match alook gm.shaders (toLower shaderName) with
  | some textures =>
    insertShaderFile gm (toLower shaderName)
      (insertImplicit gm (toLower shaderName) textures (textures.foldl (resolveStep gm) needed))
  | none =>
    match resolveTexture (toLower shaderName) gm.fileIndex with
    | some r => insertSet r needed
    | none => needed

/-- Embedding of `resolveModel`. -/
def resolveModel (modelPath : Str) (gm : GameManifest)
    (content : Str → Str → Option (List Nat)) (needed : List Str) : List Str :=
  if (alook gm.fileIndex (toLower modelPath)).isNone then needed
  else
    match readFileFromIndex (toLower modelPath) gm.fileIndex content with
    | none => insertSet (toLower modelPath) needed
    | some data =>
      match parseMD3Shaders data with
      | .error _ => insertSet (toLower modelPath) needed
      | .ok shaderRefs =>
        shaderRefs.foldl (fun acc ref => resolveShaderTextures ref gm acc)
          (insertSet (toLower modelPath) needed)

/-- A sound or music reference: added directly when present in the
index (steps 5 and 6 of `BuildMapPak`). -/
def soundStep (gm : GameManifest) (acc : List Str) (sp : Str) : List Str :=
  if (alook gm.fileIndex (toLower sp)).isSome then insertSet (toLower sp) acc else acc

/-- The levelshot step of `BuildMapPak`: probe .jpg then .tga, take the
first hit. -/
def levelshotStep (gm : GameManifest) (mapName : Str) (n4 : List Str) : List Str :=
  match [s2b ".jpg", s2b ".tga"].find? (fun ext =>
      (alook gm.fileIndex (s2b "levelshots/" ++ mapName ++ ext)).isSome) with
  | some ext => insertSet (s2b "levelshots/" ++ mapName ++ ext) n4
  | none => n4

/-- The arena-file step of `BuildMapPak`. -/
def arenaStep (gm : GameManifest) (mapName : Str) (n5 : List Str) : List Str :=
  if (alook gm.fileIndex (s2b "scripts/" ++ mapName ++ s2b ".arena")).isSome then
    insertSet (s2b "scripts/" ++ mapName ++ s2b ".arena") n5
  else n5

/-- The need-set accumulation of `BuildMapPak` (steps 1–10) followed by
the baseline subtraction (step 11): the set of paths handed to
extraction. -/
def buildMapPakNeeded (mapName : Str) (gm : GameManifest)
    (content : Str → Str → Option (List Nat)) : Except Str (List Str) :=
  if (alook gm.fileIndex (toLower (s2b "maps/" ++ mapName ++ s2b ".bsp"))).isNone then
    .error (s2b "BSP not found")
  else
    match readFileFromIndex (toLower (s2b "maps/" ++ mapName ++ s2b ".bsp"))
        gm.fileIndex content with
    | none => .error (s2b "read BSP")
    | some bspData =>
      match parseBSP bspData with
      | .error e => .error e
      | .ok bspAssets =>
        .ok ((arenaStep gm mapName
          (levelshotStep gm mapName
            (bspAssets.music.foldl (soundStep gm)
              (bspAssets.sounds.foldl (soundStep gm)
                (bspAssets.models.foldl (fun acc mp => resolveModel mp gm content acc)
                  (bspAssets.shaders.foldl (fun acc s => resolveShaderTextures s gm acc)
                    (insertSet (toLower (s2b "maps/" ++ mapName ++ s2b ".bsp")) []))))))).filter
          (fun p => !(gm.baselineFiles.contains p)))

/-- One path of `ExtractFilesFromPk3s`: locate its pk3 through the
index and read it; missing or unreadable entries contribute nothing. -/
def extractStep (fileIndex : List (Str × Str)) (content : Str → Str → Option (List Nat))
    (acc : List (Str × List Nat)) (p : Str) : List (Str × List Nat) :=
  match alook fileIndex (toLower p) with
  | none => acc
  | some pk3 =>
    match content pk3 (toLower p) with
    | none => acc
    | some d => (toLower p, d) :: acc

/-- Embedding of `ExtractFilesFromPk3s` (grouping by source pk3 elided;
the same per-path reads through the index). -/
def extractFilesFromPk3s (paths : List Str) (fileIndex : List (Str × Str))
    (content : Str → Str → Option (List Nat)) : List (Str × List Nat) :=
  paths.foldl (extractStep fileIndex content) []

/-- Embedding of `BuildMapPak` as a whole: compute the need set, return no archive
when it is empty, else the extracted files that get written. -/
def buildMapPakFiles (mapName : Str) (gm : GameManifest)
    (content : Str → Str → Option (List Nat)) :
    Except Str (Option (List (Str × List Nat))) :=
  match buildMapPakNeeded mapName gm content with
  | .error e => .error e
  | .ok needed =>
    if needed.isEmpty then .ok none
    else .ok (some (extractFilesFromPk3s needed gm.fileIndex content))

/- ## The need-set invariants (claims C5 and C10). -/

/-- Every element of the set satisfies `P`. -/
def allP (P : Str → Prop) (s : List Str) : Prop := ∀ p ∈ s, P p

/-- A one-map manifest and archive content for the witnesses. -/
def cGm : GameManifest :=
  { fileIndex := [(s2b "maps/m.bsp", s2b "pak0.pk3")]
    baselineFiles := []
    shaders := []
    shaderFiles := [] }

def cContent : Str → Str → Option (List Nat) :=
  fun pk3 path =>
    if pk3 == s2b "pak0.pk3" && path == s2b "maps/m.bsp" then some validBSP else none

/-- A manifest holding one shader definition with an empty texture
list, its script file, and the texture file matching the shader's own
name. -/
def c6gm : GameManifest :=
  { fileIndex := [(s2b "textures/base/wall.tga", s2b "pak0.pk3")]
    baselineFiles := []
    shaders := [(s2b "textures/base/wall", [])]
    shaderFiles := [(s2b "textures/base/wall", s2b "scripts/base.shader")] }

/- ## Deterministic archive writing (texture.go `WritePk3ToWriter`). -/

/-- One zip entry as `WritePk3ToWriter` emits it: name, compression
method, content.  Serialization of the entry list by `archive/zip` is a
fixed function of this list. -/
structure ZipEntry where
  name : Str
  method : Nat
  content : List Nat
deriving Repr, DecidableEq

/-- The `zip.Deflate` method constant. -/
def zipDeflate : Nat := 8

/-- Byte-lexicographic string order, as `sort.Strings` uses. -/
def strLe : Str → Str → Bool
  | [], _ => true
  | _ :: _, [] => false
  | a :: as, b :: bs => if a < b then true else if a = b then strLe as bs else false

/-- Embedding of `sort.Strings` (ascending byte-lexicographic order). -/
def sortStrings (l : List Str) : List Str :=
  List.insertionSort (fun a b => strLe a b = true) l

/-- Embedding of `WritePk3ToWriter`'s entry emission: sorted keys, each
written with Deflate and the map's bytes for that key. -/
def writePk3Entries (files : List (Str × List Nat)) : List ZipEntry :=
  (sortStrings (files.map (fun f => f.1))).map (fun name =>
    { name := name, method := zipDeflate, content := (alook files name).getD [] })

def c8f1 : List (Str × List Nat) := [(s2b "b.txt", [1]), (s2b "a.txt", [2])]

def c8f2 : List (Str × List Nat) := [(s2b "a.txt", [2]), (s2b "b.txt", [1])]

theorem bitsVal_one (d : List Bool) (p : Nat) :
    bitsVal d p 1 = if d.getD p false then 1 else 0 := by
  simp [bitsVal]

/-- C1: a present entity field consumes exactly one zero-flag bit plus,
when explicit, its value bits (selector + 13/32 for floats, the declared
width for integers), while a present player field has no zero gate and
consumes its declared width (selector + 13/32 for floats, |w| bits for
integers); neither touches the underlying data. -/
theorem delta_field_bit_consumption (m : MsgReader) (w : Int) :
    (entityFieldBody w m).data = m.data ∧
    (entityFieldBody w m).pos = m.pos + entityFieldCostSpec w m ∧
    (playerFieldBody w m).data = m.data ∧
    (playerFieldBody w m).pos = m.pos + playerFieldCostSpec w m := by
  refine ⟨?_, ?_, ?_, ?_⟩
  · by_cases hw : w = 0 <;>
      simp only [entityFieldBody, readBits, hw, if_true, if_false] <;>
      split_ifs <;> rfl
  · cases h1 : m.data.getD m.pos false <;> by_cases hw : w = 0 <;>
      cases h2 : m.data.getD (m.pos + 1) false <;>
        simp only [entityFieldBody, readBits, bitsVal, entityFieldCostSpec, bitAt,
          floatIntBits, h1, h2, hw] <;> (try simp) <;> omega
  · by_cases hw : w.natAbs = 0 <;>
      simp only [playerFieldBody, readBits, hw, if_true, if_false] <;>
      split_ifs <;> rfl
  · cases h1 : m.data.getD m.pos false <;> by_cases hw : w.natAbs = 0 <;>
      simp only [playerFieldBody, readBits, bitsVal, playerFieldCostSpec, bitAt,
        floatIntBits, h1, hw] <;> (try simp) <;> omega

/-- C9: the declared-field-count guards.  If the entity-delta field count
read after the removed/no-change flags exceeds `numEntityFields` (51),
`skipEntityDelta` returns immediately after the count byte, before any
field data; likewise `skipPlayerDelta` for a count above
`numPlayerFields` (48).  The width tables have exactly 51 and 48
entries, so the field loops (which run only when the count is within
bounds) never index them out of range. -/
theorem delta_field_count_guard :
    (∀ m : MsgReader,
      (readBits m 1).1 ≠ 1 →
      (readBits (readBits m 1).2 1).1 ≠ 0 →
      numEntityFields < (readByte (readBits (readBits m 1).2 1).2).1 →
      skipEntityDelta m = (readByte (readBits (readBits m 1).2 1).2).2) ∧
    (∀ m : MsgReader,
      numPlayerFields < (readByte m).1 →
      skipPlayerDelta m = (readByte m).2) ∧
    entityFieldBits.length = numEntityFields ∧
    playerFieldBits.length = numPlayerFields := by
  refine ⟨?_, ?_, by decide, by decide⟩
  · intro m h0 h1 h2
    simp only [skipEntityDelta]
    rw [if_neg h0, if_neg h1, if_pos h2]
  · intro m h
    simp only [skipPlayerDelta]
    rw [if_pos h]

theorem delta_field_count_guard_witness :
    ((readBits (⟨c9entBits, 0⟩ : MsgReader) 1).1 ≠ 1 ∧
     (readBits (readBits (⟨c9entBits, 0⟩ : MsgReader) 1).2 1).1 ≠ 0 ∧
     numEntityFields < (readByte (readBits (readBits (⟨c9entBits, 0⟩ : MsgReader) 1).2 1).2).1 ∧
     skipEntityDelta ⟨c9entBits, 0⟩ =
       (readByte (readBits (readBits (⟨c9entBits, 0⟩ : MsgReader) 1).2 1).2).2) ∧
    (numPlayerFields < (readByte (⟨c9plyBits, 0⟩ : MsgReader)).1 ∧
     skipPlayerDelta ⟨c9plyBits, 0⟩ = (readByte (⟨c9plyBits, 0⟩ : MsgReader)).2) :=
  ⟨⟨by decide, by decide, by decide,
    delta_field_count_guard.1 ⟨c9entBits, 0⟩ (by decide) (by decide) (by decide)⟩,
   ⟨by decide,
    delta_field_count_guard.2.1 ⟨c9plyBits, 0⟩ (by decide)⟩⟩

/- ## Position/fuel bookkeeping for the entity loop. -/

theorem entityFieldBody_data (w : Int) (m : MsgReader) :
    (entityFieldBody w m).data = m.data := by
  by_cases hw : w = 0 <;>
    simp only [entityFieldBody, readBits, hw, if_true, if_false] <;>
    split_ifs <;> rfl

theorem entityFieldBody_pos_le (w : Int) (m : MsgReader) :
    m.pos ≤ (entityFieldBody w m).pos := by
  by_cases hw : w = 0 <;>
    simp only [entityFieldBody, readBits, hw, if_true, if_false] <;>
    split_ifs <;> simp <;> omega

theorem skipEntityFields_data :
    ∀ (n i : Nat) (m : MsgReader), (skipEntityFields i n m).data = m.data := by
  intro n
  induction n with
  | zero => intro i m; rfl
  | succ k ih =>
    intro i m
    simp only [skipEntityFields, readBits]
    split_ifs
    · exact ih (i + 1) _
    · rw [ih (i + 1) _, entityFieldBody_data]

theorem skipEntityFields_pos_le :
    ∀ (n i : Nat) (m : MsgReader), m.pos ≤ (skipEntityFields i n m).pos := by
  intro n
  induction n with
  | zero => intro i m; exact Nat.le_refl _
  | succ k ih =>
    intro i m
    simp only [skipEntityFields, readBits]
    split_ifs
    · exact Nat.le_trans (Nat.le_succ _) (ih (i + 1) ⟨m.data, m.pos + 1⟩)
    · exact Nat.le_trans
        (Nat.le_trans (Nat.le_succ _) (entityFieldBody_pos_le _ ⟨m.data, m.pos + 1⟩))
        (ih (i + 1) _)

theorem skipEntityDelta_data (m : MsgReader) :
    (skipEntityDelta m).data = m.data := by
  simp only [skipEntityDelta, readByte, readBits]
  split_ifs with h1 h2 h3
  · rfl
  · rfl
  · rfl
  · exact skipEntityFields_data _ _ _

theorem skipEntityDelta_pos_le (m : MsgReader) :
    m.pos ≤ (skipEntityDelta m).pos := by
  simp only [skipEntityDelta, readByte, readBits]
  split_ifs with h1 h2 h3
  · show m.pos ≤ m.pos + 1; omega
  · show m.pos ≤ m.pos + 1 + 1; omega
  · show m.pos ≤ m.pos + 1 + 1 + 8; omega
  · exact Nat.le_trans (show m.pos ≤ m.pos + 1 + 1 + 8 by omega)
      (skipEntityFields_pos_le _ 0 ⟨m.data, m.pos + 1 + 1 + 8⟩)

theorem bitsVal_past (data : List Bool) :
    ∀ (pos n : Nat), data.length ≤ pos → bitsVal data pos n = 0 := by
  intro pos n
  induction n generalizing pos with
  | zero => intro _; rfl
  | succ k ih =>
    intro h
    simp only [bitsVal]
    rw [List.getD_eq_default _ _ h, ih (pos + 1) (Nat.le_trans h (Nat.le_succ _))]
    simp

theorem entitySkipLoop_none :
    ∀ (f : Nat) (m : MsgReader), m.data.length ≤ m.pos → entitySkipLoop f m = none := by
  intro f
  induction f with
  | zero => intro m _; rfl
  | succ k _ =>
    intro m h
    simp only [entitySkipLoop, readBits, gentitynumBits]
    rw [if_neg, if_pos]
    · simp only [remaining]
      have : m.data.length - (m.pos + 10) = 0 := by omega
      rw [this]
      decide
    · rw [bitsVal_past _ _ _ h]
      decide

/-- Fuel irrelevance for `entitySkipLoop`: any two fuels large enough
that ten bits per iteration must run past the buffer give equal
results, so the loop's result is that of the unbounded Go loop. -/
theorem entitySkipLoop_fuel :
    ∀ (f₁ f₂ : Nat) (m : MsgReader),
      m.data.length < m.pos + 10 * f₁ → m.data.length < m.pos + 10 * f₂ →
      entitySkipLoop f₁ m = entitySkipLoop f₂ m := by
  intro f₁
  induction f₁ with
  | zero =>
    intro f₂ m h₁ _
    rw [entitySkipLoop, entitySkipLoop_none f₂ m (by omega)]
  | succ a ih =>
    intro f₂ m h₁ h₂
    match f₂ with
    | 0 =>
      rw [entitySkipLoop, entitySkipLoop_none (a + 1) m (by omega)]
    | b + 1 =>
      simp only [entitySkipLoop, readBits, gentitynumBits]
      split_ifs with hs hr
      · rfl
      · rfl
      · have hrem : 16 ≤ m.data.length - (m.pos + 10) := by
          simp only [remaining, readBits] at hr
          omega
        have hd := skipEntityDelta_data ⟨m.data, m.pos + 10⟩
        have hp := skipEntityDelta_pos_le ⟨m.data, m.pos + 10⟩
        simp only at hd hp
        apply ih b
        · rw [hd]; omega
        · rw [hd]; omega

/-- C2 counterexample: on a frame whose first string-table update
declares length 0 — outside [1, 8191] — `parseOneFrame` still processes
the remaining update (index 6 is stored) and reports the full declared
count 2, not zero: the remainder of the frame's updates is not
abandoned. -/
theorem frame_bad_length_counterexample :
    parseOneFrame c2frame [] = (2, [(6, [65])]) := by decide

/-- C2 (amended): a string-table update whose declared length lies
outside [1, 8191] is skipped by itself — nothing is stored and no value
bytes are consumed — and the loop continues with the frame's remaining
updates; and the frame walk processes each later frame of the stream
regardless of what the previous frame's updates yielded. -/
theorem frame_bad_length_skips_single_update :
    (∀ (n : Nat) (m : MsgReader) (cs : CSMap),
      ((readShort (readShort m).2).1 ≤ 0 ∨ 8192 ≤ (readShort (readShort m).2).1) →
      csUpdateLoop (n + 1) m cs = csUpdateLoop n (readShort (readShort m).2).2 cs) ∧
    (∀ (fuel pos : Nat) (buf : List Nat) (cs : CSMap),
      pos + 4 ≤ buf.length →
      u32le buf pos ≠ 0 →
      pos + 4 + u32le buf pos ≤ buf.length →
      frameWalk (fuel + 1) buf pos cs =
        frameWalk fuel buf (pos + 4 + u32le buf pos)
          (parseOneFrame (bytesToBits ((buf.drop (pos + 4)).take (u32le buf pos))) cs).2) := by
  constructor
  · intro n m cs h
    simp only [csUpdateLoop]
    split_ifs with hc
    · exact absurd hc (by omega)
    · rfl
  · intro fuel pos buf cs h1 h2 h3
    simp only [frameWalk]
    rw [if_pos h1, if_neg (by omega)]

theorem frame_bad_length_skips_single_update_witness :
    ((readShort (readShort (⟨c2wBits, 0⟩ : MsgReader)).2).1 ≤ 0 ∨
      8192 ≤ (readShort (readShort (⟨c2wBits, 0⟩ : MsgReader)).2).1) ∧
    csUpdateLoop 1 ⟨c2wBits, 0⟩ [] =
      csUpdateLoop 0 (readShort (readShort (⟨c2wBits, 0⟩ : MsgReader)).2).2 [] ∧
    0 + 4 ≤ c2wBuf.length ∧ u32le c2wBuf 0 ≠ 0 ∧
    0 + 4 + u32le c2wBuf 0 ≤ c2wBuf.length ∧
    frameWalk 1 c2wBuf 0 [] =
      frameWalk 0 c2wBuf (0 + 4 + u32le c2wBuf 0)
        (parseOneFrame (bytesToBits ((c2wBuf.drop (0 + 4)).take (u32le c2wBuf 0))) []).2 :=
  ⟨by decide,
   frame_bad_length_skips_single_update.1 0 ⟨c2wBits, 0⟩ [] (by decide),
   by decide, by decide, by decide,
   frame_bad_length_skips_single_update.2 0 0 c2wBuf [] (by decide) (by decide) (by decide)⟩

theorem find_filter_ne (k k' : Str) (h : k' ≠ k) :
    ∀ m : List (Str × Str),
      (m.filter (fun p => p.1 != k)).find? (fun p => p.1 == k') =
        m.find? (fun p => p.1 == k') := by
  intro m
  induction m with
  | nil => rfl
  | cons p rest ih =>
    by_cases h1 : p.1 = k
    · have hb : (p.1 != k) = false := by simp [h1]
      have hf : (p.1 == k') = false := by
        rw [h1]
        exact beq_eq_false_iff_ne.mpr (fun e => h e.symm)
      simp only [List.filter_cons, hb, if_false, List.find?_cons, hf]
      exact ih
    · have hb : (p.1 != k) = true := by simp [h1]
      simp only [List.filter_cons, hb, if_true, List.find?_cons]
      cases hf : (p.1 == k') <;> simp [ih]

theorem alook_mapSet (m : List (Str × Str)) (k v k' : Str) :
    alook (mapSet m k v) k' = if k' = k then some v else alook m k' := by
  by_cases h : k' = k
  · simp [alook, mapSet, List.find?_cons, h]
  · have hf : (k == k') = false := beq_eq_false_iff_ne.mpr (fun e => h e.symm)
    simp only [alook, mapSet, List.find?_cons, hf, if_neg h]
    rw [find_filter_ne k k' h]

theorem alook_addPk3_entries (a : Pk3) (k : Str) :
    ∀ (es : List PkEntry) (ix : List (Str × Str)),
      alook (es.foldl (fun ix e => if e.isDir then ix else mapSet ix (toLower e.name) a.path) ix) k =
        if es.any (fun e => !e.isDir && toLower e.name == k) then some a.path
        else alook ix k := by
  intro es
  induction es with
  | nil => intro ix; rfl
  | cons e rest ih =>
    intro ix
    cases hd : e.isDir with
    | false =>
      have h1 : (e :: rest).foldl
          (fun ix e => if e.isDir then ix else mapSet ix (toLower e.name) a.path) ix =
          rest.foldl (fun ix e => if e.isDir then ix else mapSet ix (toLower e.name) a.path)
            (mapSet ix (toLower e.name) a.path) := by
        rw [List.foldl_cons, hd]
        rfl
      have h2 : (e :: rest).any (fun e => !e.isDir && toLower e.name == k) =
          ((toLower e.name == k) || rest.any (fun e => !e.isDir && toLower e.name == k)) := by
        rw [List.any_cons, hd]
        rfl
      rw [h1, h2, ih]
      cases hr : rest.any (fun e => !e.isDir && toLower e.name == k) with
      | false =>
        simp only [Bool.false_eq_true, if_false, Bool.or_false]
        rw [alook_mapSet]
        cases he : (toLower e.name == k) with
        | false =>
          simp only [Bool.false_eq_true, if_false]
          rw [if_neg]
          intro hk
          rw [hk] at he
          simp at he
        | true =>
          simp only [if_true]
          rw [if_pos (beq_iff_eq.mp he).symm]
      | true =>
        simp
    | true =>
      have h1 : (e :: rest).foldl
          (fun ix e => if e.isDir then ix else mapSet ix (toLower e.name) a.path) ix =
          rest.foldl (fun ix e => if e.isDir then ix else mapSet ix (toLower e.name) a.path) ix := by
        rw [List.foldl_cons, hd]
        rfl
      have h2 : (e :: rest).any (fun e => !e.isDir && toLower e.name == k) =
          rest.any (fun e => !e.isDir && toLower e.name == k) := by
        rw [List.any_cons, hd]
        rfl
      rw [h1, h2]
      exact ih ix

theorem alook_addPk3 (a : Pk3) (k : Str) (ix : List (Str × Str)) :
    alook (addPk3 ix a) k = if pk3Contains a k then some a.path else alook ix k := by
  unfold addPk3 pk3Contains
  exact alook_addPk3_entries a k a.entries ix

theorem alook_buildFrom (k : Str) :
    ∀ (pk3s : List Pk3) (ix : List (Str × Str)),
      alook (pk3s.foldl addPk3 ix) k =
        match pk3s.reverse.find? (fun a => pk3Contains a k) with
        | some a => some a.path
        | none => alook ix k := by
  intro pk3s
  induction pk3s with
  | nil => intro ix; rfl
  | cons a rest ih =>
    intro ix
    rw [List.foldl_cons, ih]
    simp only [List.reverse_cons, List.find?_append]
    rcases hfr : rest.reverse.find? (fun a => pk3Contains a k) with _ | b
    · simp only [Option.none_or]
      rw [alook_addPk3]
      cases hc : pk3Contains a k with
      | false => simp [List.find?, hc]
      | true => simp [List.find?, hc]
    · rfl

theorem keys_nodup_mapSet (m : List (Str × Str)) (k v : Str)
    (h : (m.map (fun p => p.1)).Nodup) :
    ((mapSet m k v).map (fun p => p.1)).Nodup := by
  simp only [mapSet, List.map_cons, List.nodup_cons]
  constructor
  · intro hk
    rcases List.mem_map.mp hk with ⟨p, hp, hpk⟩
    have hmem := List.of_mem_filter hp
    rw [hpk] at hmem
    simp at hmem
  · exact ((List.filter_sublist m).map (fun p => p.1)).nodup h

theorem keys_nodup_addPk3 (a : Pk3) :
    ∀ (es : List PkEntry) (ix : List (Str × Str)),
      (ix.map (fun p => p.1)).Nodup →
      ((es.foldl (fun ix e => if e.isDir then ix else mapSet ix (toLower e.name) a.path) ix).map
        (fun p => p.1)).Nodup := by
  intro es
  induction es with
  | nil => intro ix h; exact h
  | cons e rest ih =>
    intro ix h
    rw [List.foldl_cons]
    cases hd : e.isDir with
    | false => exact ih _ (keys_nodup_mapSet _ _ _ h)
    | true => exact ih _ h

theorem keys_nodup_buildFrom :
    ∀ (pk3s : List Pk3) (ix : List (Str × Str)),
      (ix.map (fun p => p.1)).Nodup →
      ((pk3s.foldl addPk3 ix).map (fun p => p.1)).Nodup := by
  intro pk3s
  induction pk3s with
  | nil => intro ix h; exact h
  | cons a rest ih =>
    intro ix h
    exact ih _ (keys_nodup_addPk3 a a.entries ix h)

/-- C4: `BuildFileIndex` resolves a lowercased path to the last archive
in the list containing a matching (case-insensitive, non-directory)
entry — the first such archive in the reversed load order — and records
at most one archive per lowercased path (the key list of the index has
no duplicates), later archives overwriting earlier ones. -/
theorem build_file_index_last_wins (pk3s : List Pk3) (path : Str) :
    alook (buildFileIndex pk3s) (toLower path) =
      (pk3s.reverse.find? (fun a => pk3Contains a (toLower path))).map (fun a => a.path) ∧
    ((buildFileIndex pk3s).map (fun p => p.1)).Nodup := by
  constructor
  · rw [buildFileIndex, alook_buildFrom]
    rcases pk3s.reverse.find? (fun a => pk3Contains a (toLower path)) with _ | a <;> rfl
  · exact keys_nodup_buildFrom pk3s [] (by simp)

/-- C3 counterexample: the classifier returns `true`, not `false`, on a
path under `models/players/` — the include-prefix list, which is
consulted first, itself contains `models/players/`. -/
theorem baseline_player_models_counterexample :
    isBaselineFile (s2b "models/players/sarge/upper.md3") = true := by decide

/-- C3 (amended): every path beginning with the per-player model
directory prefix `models/players/` is classified INTO the baseline:
that prefix is on the include list, which takes priority over the
exclude list, so such files from the official archives are placed into
the baseline archive by classification. -/
theorem baseline_player_models_amended (p : Str)
    (h : strStartsWith p (s2b "models/players/") = true) :
    isBaselineFile p = true := by
  have hc : baselinePrefixes.any (fun q => strStartsWith p q) = true :=
    List.any_eq_true.mpr ⟨s2b "models/players/", by decide, h⟩
  simp only [isBaselineFile, hc, if_true]

theorem baseline_player_models_amended_witness :
    strStartsWith (s2b "models/players/xaero/head.skin") (s2b "models/players/") = true ∧
    isBaselineFile (s2b "models/players/xaero/head.skin") = true :=
  ⟨by decide, baseline_player_models_amended _ (by decide)⟩

theorem getD_take_lt (l : List Nat) (n j : Nat) (h : j < n) :
    (l.take n).getD j 0 = l.getD j 0 := by
  simp [List.getD_eq_getElem?_getD, List.getElem?_take, h]

theorem u32le_take (l : List Nat) (n i : Nat) (h : i + 4 ≤ n) :
    u32le (l.take n) i = u32le l i := by
  unfold u32le
  rw [getD_take_lt _ _ _ (by omega), getD_take_lt _ _ _ (by omega),
    getD_take_lt _ _ _ (by omega), getD_take_lt _ _ _ (by omega)]

theorem readAt_eq_some (data : List Nat) (off len : Nat) (h : off + len ≤ data.length) :
    readAt data off len = some ((data.drop off).take len) := by
  unfold readAt
  rw [if_pos h]

theorem readAt_bound {data : List Nat} {off len : Nat} {b : List Nat}
    (h : readAt data off len = some b) : off + len ≤ data.length := by
  unfold readAt at h
  by_cases hb : off + len ≤ data.length
  · exact hb
  · rw [if_neg hb] at h
    exact Option.noConfusion h

/-- C7 (amended): a successful `ParseBSP` implies the buffer holds the
fixed header, the magic is exactly "IBSP", the version exactly 46, and
each lump it read lay inside the declared buffer length; a successful
`ParseMD3Shaders` implies the header fits, the magic is exactly "IDP3"
and the version exactly 15.  Contrapositively, no undersized buffer or
mismatched header ever yields a successful parse, and a BSP lump read
that would pass the buffer is an error; MD3 surface records that would
pass the buffer instead end the walk early without error (see the
counterexample). -/
theorem bspEntStep_ok {data : List Nat} {o l : Nat} {a : BSPAssets}
    (h : bspEntStep data o l = .ok a) : l = 0 ∨ o + l ≤ data.length := by
  unfold bspEntStep at h
  by_cases hl : l > 0
  · rw [if_pos hl] at h
    cases hra : readAt data o l with
    | none => rw [hra] at h; simp at h
    | some entData => exact Or.inr (readAt_bound hra)
  · exact Or.inl (by omega)

theorem bspShaderStep_ok {data : List Nat} {o l : Nat} {a0 a : BSPAssets}
    (h : bspShaderStep data o l a0 = .ok a) :
    l / bspShaderSize = 0 ∨ o + l ≤ data.length := by
  unfold bspShaderStep at h
  by_cases hl : l / bspShaderSize > 0
  · rw [if_pos hl] at h
    cases hra : readAt data o l with
    | none => rw [hra] at h; simp at h
    | some shaderData => exact Or.inr (readAt_bound hra)
  · exact Or.inl (Nat.eq_zero_of_not_pos hl)

/-- C7 (amended): a successful `ParseBSP` implies the buffer holds the
fixed header, the magic is exactly "IBSP", the version exactly 46, and
each lump it read lay inside the declared buffer length; a successful
`ParseMD3Shaders` implies the header fits, the magic is exactly "IDP3"
and the version exactly 15.  Contrapositively, no undersized buffer or
mismatched header ever yields a successful parse, and a BSP lump read
that would pass the buffer is an error; MD3 surface records that would
pass the buffer instead end the walk early without error (see the
counterexample). -/
theorem parser_header_validation :
    (∀ (data : List Nat) (r : BSPAssets), parseBSP data = .ok r →
      bspHeaderSize ≤ data.length ∧ data.take 4 = s2b "IBSP" ∧ u32le data 4 = 46 ∧
      (u32le data 12 = 0 ∨ u32le data 8 + u32le data 12 ≤ data.length) ∧
      (u32le data 20 / bspShaderSize = 0 ∨ u32le data 16 + u32le data 20 ≤ data.length)) ∧
    (∀ (data : List Nat) (rs : List Str), parseMD3Shaders data = .ok rs →
      md3HeaderSize ≤ data.length ∧ data.take 4 = s2b "IDP3" ∧
      i32ofU32 (u32le data 4) = 15) := by
  constructor
  · intro data r h
    unfold parseBSP at h
    split at h
    · exact absurd h (by simp)
    case isFalse hlen =>
    have hlen2 : bspHeaderSize ≤ data.length := by omega
    rw [readAt_eq_some data 0 bspHeaderSize (by omega), List.drop_zero] at h
    split at h
    case h_1 heq => exact absurd heq (by simp)
    case h_2 header heq =>
    have hh : data.take bspHeaderSize = header := Option.some.inj heq
    subst hh
    split at h
    case isTrue hmagic => exact absurd h (by simp)
    case isFalse hmagic =>
    split at h
    case isTrue hver => exact absurd h (by simp)
    case isFalse hver =>
    have hmagic2 : data.take 4 = s2b "IBSP" := by
      have hx : ((data.take bspHeaderSize).take 4 != s2b "IBSP") = false := by
        simpa using hmagic
      have hy := bne_eq_false_iff_eq.mp hx
      rw [List.take_take] at hy
      simpa using hy
    have hver2 : u32le data 4 = 46 := by
      have hx : (u32le (data.take bspHeaderSize) 4 != 46) = false := by
        simpa using hver
      have hy := bne_eq_false_iff_eq.mp hx
      rw [u32le_take data bspHeaderSize 4 (by norm_num [bspHeaderSize])] at hy
      exact hy
    rw [u32le_take data bspHeaderSize 8 (by norm_num [bspHeaderSize]),
        u32le_take data bspHeaderSize 12 (by norm_num [bspHeaderSize]),
        u32le_take data bspHeaderSize 16 (by norm_num [bspHeaderSize]),
        u32le_take data bspHeaderSize 20 (by norm_num [bspHeaderSize])] at h
    refine ⟨hlen2, hmagic2, hver2, ?_⟩
    split at h
    case h_1 e heq1 => exact absurd h (by simp)
    case h_2 assets0 heq1 =>
    exact ⟨bspEntStep_ok heq1, bspShaderStep_ok h⟩
  · intro data rs h
    unfold parseMD3Shaders at h
    split at h
    · exact absurd h (by simp)
    case isFalse hlen =>
    have hlen2 : md3HeaderSize ≤ data.length := by omega
    rw [readAt_eq_some data 0 md3HeaderSize (by omega), List.drop_zero] at h
    split at h
    case h_1 heq => exact absurd heq (by simp)
    case h_2 header heq =>
    have hh : data.take md3HeaderSize = header := Option.some.inj heq
    subst hh
    split at h
    case isTrue hmagic => exact absurd h (by simp)
    case isFalse hmagic =>
    split at h
    case isTrue hver => exact absurd h (by simp)
    case isFalse hver =>
    have hmagic2 : data.take 4 = s2b "IDP3" := by
      have hx : ((data.take md3HeaderSize).take 4 != s2b "IDP3") = false := by
        simpa using hmagic
      have hy := bne_eq_false_iff_eq.mp hx
      rw [List.take_take] at hy
      simpa using hy
    have hver2 : i32ofU32 (u32le data 4) = 15 := by
      have hx : (i32ofU32 (u32le (data.take md3HeaderSize) 4) != 15) = false := by
        simpa using hver
      have hy := bne_eq_false_iff_eq.mp hx
      rw [u32le_take data md3HeaderSize 4 (by norm_num [md3HeaderSize])] at hy
      exact hy
    exact ⟨hlen2, hmagic2, hver2⟩

theorem parser_header_validation_witness :
    parseBSP validBSP = .ok ⟨[], [], [], []⟩ ∧
    parseMD3Shaders validMD3 = .ok [] ∧
    (bspHeaderSize ≤ validBSP.length ∧ validBSP.take 4 = s2b "IBSP" ∧
      u32le validBSP 4 = 46 ∧
      (u32le validBSP 12 = 0 ∨ u32le validBSP 8 + u32le validBSP 12 ≤ validBSP.length) ∧
      (u32le validBSP 20 / bspShaderSize = 0 ∨
        u32le validBSP 16 + u32le validBSP 20 ≤ validBSP.length)) ∧
    (md3HeaderSize ≤ validMD3.length ∧ validMD3.take 4 = s2b "IDP3" ∧
      i32ofU32 (u32le validMD3 4) = 15) :=
  ⟨by rfl, by rfl,
   parser_header_validation.1 validBSP ⟨[], [], [], []⟩ (by rfl),
   parser_header_validation.2 validMD3 [] (by rfl)⟩

/-- C7 counterexample: `ParseMD3Shaders` succeeds (with an empty shader
list) on a valid-header MD3 that declares one surface whose 116-byte
header read would pass the declared 108-byte buffer length: the surface
walk breaks instead of returning an error, so a read that would pass
the buffer does not always produce an error. -/
theorem md3_truncated_surface_counterexample :
    truncMD3.length = 108 ∧
    i32ofU32 (u32le truncMD3 76) = 1 ∧
    truncMD3.length < u32le truncMD3 96 + 116 ∧
    parseMD3Shaders truncMD3 = .ok [] :=
  ⟨by decide, by decide, by decide, by rfl⟩

theorem foldl_preserve {α β : Type} {P : β → Prop} {f : β → α → β}
    (hstep : ∀ acc x, P acc → P (f acc x)) :
    ∀ (l : List α) (init : β), P init → P (l.foldl f init) := by
  intro l
  induction l with
  | nil => intro init h; exact h
  | cons x rest ih => intro init h; exact ih _ (hstep init x h)

theorem allP_insertSet {P : Str → Prop} {p : Str} {s : List Str}
    (hp : P p) (hs : allP P s) : allP P (insertSet p s) := by
  unfold insertSet
  split_ifs with hc
  · exact hs
  · intro q hq
    rcases List.mem_cons.mp hq with h | h
    · rw [h]; exact hp
    · exact hs q h

theorem allP_filter {P : Str → Prop} {f : Str → Bool} {s : List Str}
    (hs : allP P s) : allP P (s.filter f) :=
  fun q hq => hs q (List.mem_of_mem_filter hq)

theorem resolveWithExtensions_isSome {fi : List (Str × Str)} :
    ∀ {exts : List Str} {base r : Str},
      (exts.findSome? (fun ext =>
        if (alook fi (base ++ ext)).isSome then some (base ++ ext) else none)) = some r →
      (alook fi r).isSome = true := by
  intro exts
  induction exts with
  | nil => intro base r h; exact absurd h (by simp)
  | cons e t ih =>
    intro base r h
    rw [List.findSome?_cons] at h
    by_cases hc : (alook fi (base ++ e)).isSome = true
    · rw [if_pos hc] at h
      have h2 : some (base ++ e) = some r := h
      rw [← Option.some.inj h2]
      exact hc
    · rw [if_neg hc] at h
      exact ih h

theorem resolveTexture_isSome {path r : Str} {fi : List (Str × Str)}
    (h : resolveTexture path fi = some r) : (alook fi r).isSome = true := by
  unfold resolveTexture at h
  rcases hf : textureExtensions.find? (fun ext => strHasSuffix (toLower path) ext) with _ | ext
  · rw [hf] at h
    exact resolveWithExtensions_isSome h
  · rw [hf] at h
    split_ifs at h with hc
    · rw [← Option.some.inj h]
      exact hc
    · exact resolveWithExtensions_isSome h

theorem resolveStep_inIndex {gm : GameManifest} {acc : List Str} (tex : Str)
    (h : allP (fun p => (alook gm.fileIndex p).isSome = true) acc) :
    allP (fun p => (alook gm.fileIndex p).isSome = true) (resolveStep gm acc tex) := by
  unfold resolveStep
  rcases hr : resolveTexture tex gm.fileIndex with _ | r
  · exact h
  · exact allP_insertSet (resolveTexture_isSome hr) h

theorem resolveShaderTextures_inIndex {gm : GameManifest}
    (hSF : ∀ s p, alook gm.shaderFiles s = some p → (alook gm.fileIndex p).isSome = true)
    (sn : Str) {needed : List Str}
    (h : allP (fun p => (alook gm.fileIndex p).isSome = true) needed) :
    allP (fun p => (alook gm.fileIndex p).isSome = true)
      (resolveShaderTextures sn gm needed) := by
  unfold resolveShaderTextures
  rcases hs : alook gm.shaders (toLower sn) with _ | textures
  · rcases hr : resolveTexture (toLower sn) gm.fileIndex with _ | r
    · exact h
    · exact allP_insertSet (resolveTexture_isSome hr) h
  · have h1 := foldl_preserve (fun acc x ha => resolveStep_inIndex x ha) textures needed h
    have h2 : allP (fun p => (alook gm.fileIndex p).isSome = true)
        (insertImplicit gm (toLower sn) textures (textures.foldl (resolveStep gm) needed)) := by
      unfold insertImplicit
      split_ifs with he
      · rcases hr : resolveTexture (toLower sn) gm.fileIndex with _ | r
        · exact h1
        · exact allP_insertSet (resolveTexture_isSome hr) h1
      · exact h1
    unfold insertShaderFile
    rcases hsf : alook gm.shaderFiles (toLower sn) with _ | scriptPath
    · exact h2
    · exact allP_insertSet (hSF _ _ hsf) h2

theorem resolveModel_inIndex {gm : GameManifest}
    (content : Str → Str → Option (List Nat))
    (hSF : ∀ s p, alook gm.shaderFiles s = some p → (alook gm.fileIndex p).isSome = true)
    (mp : Str) {needed : List Str}
    (h : allP (fun p => (alook gm.fileIndex p).isSome = true) needed) :
    allP (fun p => (alook gm.fileIndex p).isSome = true)
      (resolveModel mp gm content needed) := by
  unfold resolveModel
  split_ifs with hn
  · exact h
  · have hin : (alook gm.fileIndex (toLower mp)).isSome = true := by
      rcases ho : alook gm.fileIndex (toLower mp) with _ | v
      · rw [ho] at hn; exact absurd rfl hn
      · simp [ho]
    have h1 := allP_insertSet hin h
    split
    · exact h1
    · split
      · exact h1
      · exact foldl_preserve (fun acc x ha => resolveShaderTextures_inIndex hSF x ha) _ _ h1

theorem soundStep_inIndex {gm : GameManifest} {acc : List Str} (sp : Str)
    (h : allP (fun p => (alook gm.fileIndex p).isSome = true) acc) :
    allP (fun p => (alook gm.fileIndex p).isSome = true) (soundStep gm acc sp) := by
  unfold soundStep
  split_ifs with hc
  · exact allP_insertSet hc h
  · exact h

theorem levelshotStep_inIndex {gm : GameManifest} (mapName : Str) {n : List Str}
    (h : allP (fun p => (alook gm.fileIndex p).isSome = true) n) :
    allP (fun p => (alook gm.fileIndex p).isSome = true) (levelshotStep gm mapName n) := by
  unfold levelshotStep
  rcases hf : [s2b ".jpg", s2b ".tga"].find? (fun ext =>
      (alook gm.fileIndex (s2b "levelshots/" ++ mapName ++ ext)).isSome) with _ | ext
  · exact h
  · have hx := List.find?_some hf
    exact allP_insertSet hx h

theorem arenaStep_inIndex {gm : GameManifest} (mapName : Str) {n : List Str}
    (h : allP (fun p => (alook gm.fileIndex p).isSome = true) n) :
    allP (fun p => (alook gm.fileIndex p).isSome = true) (arenaStep gm mapName n) := by
  unfold arenaStep
  split_ifs with hc
  · exact allP_insertSet hc h
  · exact h

/-- C10: assuming every value of the manifest's `ShaderFiles` map is a
key of its `FileIndex`, every path in `BuildMapPak`'s need set when
extraction begins is a key of `FileIndex` — each resolution step adds a
path only after confirming its presence in the index. -/
theorem map_pak_need_set_in_index (mapName : Str) (gm : GameManifest)
    (content : Str → Str → Option (List Nat)) (needed : List Str)
    (hSF : ∀ s p, alook gm.shaderFiles s = some p → (alook gm.fileIndex p).isSome = true)
    (h : buildMapPakNeeded mapName gm content = .ok needed) :
    ∀ p ∈ needed, (alook gm.fileIndex p).isSome = true := by
  unfold buildMapPakNeeded at h
  by_cases hbsp : (alook gm.fileIndex (toLower (s2b "maps/" ++ mapName ++ s2b ".bsp"))).isNone
    = true
  · rw [if_pos hbsp] at h
    exact absurd h (by simp)
  · rw [if_neg hbsp] at h
    split at h
    next heq => exact absurd h (by simp)
    next bspData heq =>
    split at h
    next e heq2 => exact absurd h (by simp)
    next bspAssets heq2 =>
    have hbsp2 : (alook gm.fileIndex
        (toLower (s2b "maps/" ++ mapName ++ s2b ".bsp"))).isSome = true := by
      rcases ho : alook gm.fileIndex (toLower (s2b "maps/" ++ mapName ++ s2b ".bsp"))
        with _ | v
      · rw [ho] at hbsp; exact absurd rfl hbsp
      · simp [ho]
    have h0 : allP (fun p => (alook gm.fileIndex p).isSome = true)
        (insertSet (toLower (s2b "maps/" ++ mapName ++ s2b ".bsp")) []) :=
      allP_insertSet hbsp2 (fun q hq => absurd hq (List.not_mem_nil q))
    have h1 := foldl_preserve
      (fun acc x ha => resolveShaderTextures_inIndex hSF x ha) bspAssets.shaders _ h0
    have h2 := foldl_preserve
      (fun acc x ha => resolveModel_inIndex content hSF x ha) bspAssets.models _ h1
    have h3 := foldl_preserve
      (fun acc x ha => soundStep_inIndex x ha) bspAssets.sounds _ h2
    have h4 := foldl_preserve
      (fun acc x ha => soundStep_inIndex x ha) bspAssets.music _ h3
    have h5 := levelshotStep_inIndex mapName h4
    have h6 := arenaStep_inIndex mapName h5
    have h7 := allP_filter (f := fun p => !(gm.baselineFiles.contains p)) h6
    have hneed := (Except.ok.inj h).symm
    rw [hneed]
    exact h7

theorem lowChar_idem (c : Nat) : lowChar (lowChar c) = lowChar c := by
  unfold lowChar
  split_ifs <;> omega

theorem toLower_idem (s : Str) : toLower (toLower s) = toLower s := by
  unfold toLower
  rw [List.map_map]
  exact List.map_congr_left (fun a _ => lowChar_idem a)

theorem toLower_append (a b : Str) : toLower (a ++ b) = toLower a ++ toLower b :=
  List.map_append _ _ _

theorem textureExtensions_low : ∀ e ∈ textureExtensions, toLower e = e := by decide

theorem resolveWithExtensions_low {fi : List (Str × Str)} :
    ∀ {exts : List Str} {base r : Str},
      (∀ e ∈ exts, toLower e = e) → toLower base = base →
      (exts.findSome? (fun ext =>
        if (alook fi (base ++ ext)).isSome then some (base ++ ext) else none)) = some r →
      toLower r = r := by
  intro exts
  induction exts with
  | nil => intro base r _ _ h; exact absurd h (by simp)
  | cons e t ih =>
    intro base r hexts hbase h
    rw [List.findSome?_cons] at h
    by_cases hc : (alook fi (base ++ e)).isSome = true
    · rw [if_pos hc] at h
      have h2 : some (base ++ e) = some r := h
      rw [← Option.some.inj h2, toLower_append, hbase, hexts e (by simp)]
    · rw [if_neg hc] at h
      exact ih (fun x hx => hexts x (List.mem_cons_of_mem e hx)) hbase h

theorem resolveTexture_low {path r : Str} {fi : List (Str × Str)}
    (h : resolveTexture path fi = some r) : toLower r = r := by
  unfold resolveTexture at h
  rcases hf : textureExtensions.find? (fun ext => strHasSuffix (toLower path) ext) with _ | ext
  · rw [hf] at h
    exact resolveWithExtensions_low textureExtensions_low (toLower_idem path) h
  · rw [hf] at h
    split_ifs at h with hc
    · rw [← Option.some.inj h]
      exact toLower_idem path
    · refine resolveWithExtensions_low textureExtensions_low ?_ h
      unfold toLower
      rw [List.map_take]
      have := toLower_idem path
      unfold toLower at this
      rw [this]

theorem resolveStep_low (gm : GameManifest) {acc : List Str} (tex : Str)
    (h : allP (fun p => toLower p = p) acc) :
    allP (fun p => toLower p = p) (resolveStep gm acc tex) := by
  unfold resolveStep
  rcases hr : resolveTexture tex gm.fileIndex with _ | r
  · exact h
  · exact allP_insertSet (resolveTexture_low hr) h

theorem resolveShaderTextures_low {gm : GameManifest}
    (hSF : ∀ s p, alook gm.shaderFiles s = some p → toLower p = p)
    (sn : Str) {needed : List Str}
    (h : allP (fun p => toLower p = p) needed) :
    allP (fun p => toLower p = p) (resolveShaderTextures sn gm needed) := by
  unfold resolveShaderTextures
  rcases hs : alook gm.shaders (toLower sn) with _ | textures
  · rcases hr : resolveTexture (toLower sn) gm.fileIndex with _ | r
    · exact h
    · exact allP_insertSet (resolveTexture_low hr) h
  · have h1 := foldl_preserve (fun acc x ha => resolveStep_low gm x ha) textures needed h
    have h2 : allP (fun p => toLower p = p)
        (insertImplicit gm (toLower sn) textures (textures.foldl (resolveStep gm) needed)) := by
      unfold insertImplicit
      split_ifs with he
      · rcases hr : resolveTexture (toLower sn) gm.fileIndex with _ | r
        · exact h1
        · exact allP_insertSet (resolveTexture_low hr) h1
      · exact h1
    unfold insertShaderFile
    rcases hsf : alook gm.shaderFiles (toLower sn) with _ | scriptPath
    · exact h2
    · exact allP_insertSet (hSF _ _ hsf) h2

theorem resolveModel_low {gm : GameManifest}
    (content : Str → Str → Option (List Nat))
    (hSF : ∀ s p, alook gm.shaderFiles s = some p → toLower p = p)
    (mp : Str) {needed : List Str}
    (h : allP (fun p => toLower p = p) needed) :
    allP (fun p => toLower p = p) (resolveModel mp gm content needed) := by
  unfold resolveModel
  split_ifs with hn
  · exact h
  · have h1 := allP_insertSet (P := fun p => toLower p = p) (toLower_idem mp) h
    split
    · exact h1
    · split
      · exact h1
      · exact foldl_preserve (fun acc x ha => resolveShaderTextures_low hSF x ha) _ _ h1

theorem soundStep_low (gm : GameManifest) {acc : List Str} (sp : Str)
    (h : allP (fun p => toLower p = p) acc) :
    allP (fun p => toLower p = p) (soundStep gm acc sp) := by
  unfold soundStep
  split_ifs with hc
  · exact allP_insertSet (toLower_idem sp) h
  · exact h

theorem levelshotStep_low {gm : GameManifest}
    (hIdx : ∀ k v, alook gm.fileIndex k = some v → toLower k = k)
    (mapName : Str) {n : List Str}
    (h : allP (fun p => toLower p = p) n) :
    allP (fun p => toLower p = p) (levelshotStep gm mapName n) := by
  unfold levelshotStep
  rcases hf : [s2b ".jpg", s2b ".tga"].find? (fun ext =>
      (alook gm.fileIndex (s2b "levelshots/" ++ mapName ++ ext)).isSome) with _ | ext
  · exact h
  · have hx := List.find?_some hf
    rcases ho : alook gm.fileIndex (s2b "levelshots/" ++ mapName ++ ext) with _ | v
    · rw [ho] at hx; exact absurd hx (by simp)
    · exact allP_insertSet (hIdx _ _ ho) h

theorem arenaStep_low {gm : GameManifest}
    (hIdx : ∀ k v, alook gm.fileIndex k = some v → toLower k = k)
    (mapName : Str) {n : List Str}
    (h : allP (fun p => toLower p = p) n) :
    allP (fun p => toLower p = p) (arenaStep gm mapName n) := by
  unfold arenaStep
  split_ifs with hc
  · rcases ho : alook gm.fileIndex (s2b "scripts/" ++ mapName ++ s2b ".arena") with _ | v
    · rw [ho] at hc; exact absurd hc (by simp)
    · exact allP_insertSet (hIdx _ _ ho) h
  · exact h

/-- The shape of a successful need-set computation. -/
theorem buildMapPakNeeded_ok_shape {mapName : Str} {gm : GameManifest}
    {content : Str → Str → Option (List Nat)} {needed : List Str}
    (h : buildMapPakNeeded mapName gm content = .ok needed) :
    (alook gm.fileIndex (toLower (s2b "maps/" ++ mapName ++ s2b ".bsp"))).isSome = true ∧
    ∃ bspAssets : BSPAssets,
      needed = (arenaStep gm mapName (levelshotStep gm mapName
        (bspAssets.music.foldl (soundStep gm) (bspAssets.sounds.foldl (soundStep gm)
          (bspAssets.models.foldl (fun acc mp => resolveModel mp gm content acc)
            (bspAssets.shaders.foldl (fun acc s => resolveShaderTextures s gm acc)
              (insertSet (toLower (s2b "maps/" ++ mapName ++ s2b ".bsp")) []))))))).filter
        (fun p => !(gm.baselineFiles.contains p)) := by
  unfold buildMapPakNeeded at h
  by_cases hbsp : (alook gm.fileIndex (toLower (s2b "maps/" ++ mapName ++ s2b ".bsp"))).isNone
    = true
  · rw [if_pos hbsp] at h
    exact absurd h (by simp)
  · rw [if_neg hbsp] at h
    have hsome : (alook gm.fileIndex
        (toLower (s2b "maps/" ++ mapName ++ s2b ".bsp"))).isSome = true := by
      rcases ho : alook gm.fileIndex (toLower (s2b "maps/" ++ mapName ++ s2b ".bsp"))
        with _ | v
      · rw [ho] at hbsp; exact absurd rfl hbsp
      · simp [ho]
    refine ⟨hsome, ?_⟩
    split at h
    next heq => exact absurd h (by simp)
    next bspData heq =>
    split at h
    next e heq2 => exact absurd h (by simp)
    next bspAssets heq2 =>
    exact ⟨bspAssets, (Except.ok.inj h).symm⟩

theorem mem_extractStep {fi : List (Str × Str)} {content : Str → Str → Option (List Nat)}
    {acc : List (Str × List Nat)} {p : Str} {pr : Str × List Nat}
    (h : pr ∈ extractStep fi content acc p) : pr ∈ acc ∨ pr.1 = toLower p := by
  unfold extractStep at h
  split at h
  · exact Or.inl h
  · split at h
    · exact Or.inl h
    · rcases List.mem_cons.mp h with he | he
      · exact Or.inr (by rw [he])
      · exact Or.inl he

theorem mem_extract {fi : List (Str × Str)} {content : Str → Str → Option (List Nat)}
    {pr : Str × List Nat} :
    ∀ {paths : List Str} {acc : List (Str × List Nat)},
      pr ∈ paths.foldl (extractStep fi content) acc →
      pr ∈ acc ∨ ∃ q ∈ paths, pr.1 = toLower q := by
  intro paths
  induction paths with
  | nil => intro acc h; exact Or.inl h
  | cons p rest ih =>
    intro acc h
    rw [List.foldl_cons] at h
    rcases ih h with hin | ⟨q, hq, hq2⟩
    · rcases mem_extractStep hin with he | he
      · exact Or.inl he
      · exact Or.inr ⟨p, by simp, he⟩
    · exact Or.inr ⟨q, List.mem_cons_of_mem p hq, hq2⟩

/-- C5: the files a per-map archive receives are disjoint from the
manifest's Baseline Set — every baseline path is removed from the
accumulated need set before extraction, however many resolution steps
added it.  (The manifest invariants used are those `BuildBaseline`
establishes: index keys and shader-script paths are stored
lowercased.) -/
theorem map_pak_baseline_disjoint (mapName : Str) (gm : GameManifest)
    (content : Str → Str → Option (List Nat)) (files : List (Str × List Nat))
    (hIdx : ∀ k v, alook gm.fileIndex k = some v → toLower k = k)
    (hSF : ∀ s p, alook gm.shaderFiles s = some p → toLower p = p)
    (h : buildMapPakFiles mapName gm content = .ok (some files)) :
    ∀ pr ∈ files, gm.baselineFiles.contains pr.1 = false := by
  unfold buildMapPakFiles at h
  split at h
  next e heq => exact absurd h (by simp)
  next needed heq =>
  split_ifs at h with hemp
  · exact absurd h (by simp)
  · have hfiles : files = extractFilesFromPk3s needed gm.fileIndex content :=
      (Option.some.inj (Except.ok.inj h)).symm
    obtain ⟨hsome, bspAssets, hshape⟩ := buildMapPakNeeded_ok_shape heq
    have hlowbsp : toLower (toLower (s2b "maps/" ++ mapName ++ s2b ".bsp")) =
        toLower (s2b "maps/" ++ mapName ++ s2b ".bsp") := toLower_idem _
    have h0 : allP (fun p => toLower p = p)
        (insertSet (toLower (s2b "maps/" ++ mapName ++ s2b ".bsp")) []) :=
      allP_insertSet hlowbsp (fun q hq => absurd hq (List.not_mem_nil q))
    have h1 := foldl_preserve
      (fun acc x ha => resolveShaderTextures_low hSF x ha) bspAssets.shaders _ h0
    have h2 := foldl_preserve
      (fun acc x ha => resolveModel_low content hSF x ha) bspAssets.models _ h1
    have h3 := foldl_preserve (fun acc x ha => soundStep_low gm x ha) bspAssets.sounds _ h2
    have h4 := foldl_preserve (fun acc x ha => soundStep_low gm x ha) bspAssets.music _ h3
    have h5 := levelshotStep_low hIdx mapName h4
    have h6 := arenaStep_low hIdx mapName h5
    have hlow : allP (fun p => toLower p = p) needed := by
      rw [hshape]
      exact allP_filter h6
    have hnb : ∀ q ∈ needed, gm.baselineFiles.contains q = false := by
      intro q hq
      rw [hshape] at hq
      have := List.of_mem_filter hq
      simpa using this
    intro pr hpr
    rw [hfiles] at hpr
    unfold extractFilesFromPk3s at hpr
    rcases mem_extract hpr with hin | ⟨q, hq, hq2⟩
    · exact absurd hin (List.not_mem_nil pr)
    · rw [hq2, hlow q hq]
      exact hnb q hq

theorem alook_single {α : Type} (a : Str) (b : α) (k : Str) :
    alook [(a, b)] k = if (a == k) = true then some b else none := by
  unfold alook
  cases hk : (a == k) <;> simp [List.find?, hk]

theorem map_pak_need_set_in_index_witness :
    (∀ s p, alook cGm.shaderFiles s = some p → (alook cGm.fileIndex p).isSome = true) ∧
    buildMapPakNeeded (s2b "m") cGm cContent = .ok [s2b "maps/m.bsp"] ∧
    (∀ p ∈ [s2b "maps/m.bsp"], (alook cGm.fileIndex p).isSome = true) :=
  ⟨fun s p hp => absurd hp (by simp [alook, cGm]),
   by rfl,
   map_pak_need_set_in_index (s2b "m") cGm cContent [s2b "maps/m.bsp"]
     (fun s p hp => absurd hp (by simp [alook, cGm])) (by rfl)⟩

theorem map_pak_baseline_disjoint_witness :
    (∀ k v, alook cGm.fileIndex k = some v → toLower k = k) ∧
    (∀ s p, alook cGm.shaderFiles s = some p → toLower p = p) ∧
    buildMapPakFiles (s2b "m") cGm cContent = .ok (some [(s2b "maps/m.bsp", validBSP)]) ∧
    (∀ pr ∈ [(s2b "maps/m.bsp", validBSP)], cGm.baselineFiles.contains pr.1 = false) :=
  ⟨fun k v h => by
     rw [show cGm.fileIndex = [(s2b "maps/m.bsp", s2b "pak0.pk3")] from rfl,
       alook_single] at h
     by_cases he : (s2b "maps/m.bsp" == k) = true
     · rw [← beq_iff_eq.mp he]
       decide
     · rw [if_neg he] at h
       exact absurd h (by simp),
   fun s p hp => absurd hp (by simp [alook, cGm]),
   by rfl,
   map_pak_baseline_disjoint (s2b "m") cGm cContent [(s2b "maps/m.bsp", validBSP)]
     (fun k v h => by
       rw [show cGm.fileIndex = [(s2b "maps/m.bsp", s2b "pak0.pk3")] from rfl,
         alook_single] at h
       by_cases he : (s2b "maps/m.bsp" == k) = true
       · rw [← beq_iff_eq.mp he]
         decide
       · rw [if_neg he] at h
         exact absurd h (by simp))
     (fun s p hp => absurd hp (by simp [alook, cGm])) (by rfl)⟩

/-- C6: a shader whose manifest definition has an empty texture list is
not an error: `resolveShaderTextures` treats the shader's own lowercased
name as a single implicit texture (`insertImplicit`), resolved through
`resolveTexture` — the very resolution used for a name with no shader
definition at all, i.e. a direct texture path — and also adds the
defining script file (`insertShaderFile`). -/
theorem empty_shader_uses_own_name (shaderName : Str) (gm : GameManifest) (needed : List Str)
    (h : alook gm.shaders (toLower shaderName) = some []) :
    resolveShaderTextures shaderName gm needed =
      insertShaderFile gm (toLower shaderName)
        (insertImplicit gm (toLower shaderName) [] needed) ∧
    insertImplicit gm (toLower shaderName) [] needed =
      (match resolveTexture (toLower shaderName) gm.fileIndex with
       | some r => insertSet r needed
       | none => needed) ∧
    (∀ sn2 : Str, alook gm.shaders (toLower sn2) = none →
      resolveShaderTextures sn2 gm needed =
        (match resolveTexture (toLower sn2) gm.fileIndex with
         | some r => insertSet r needed
         | none => needed)) := by
  refine ⟨?_, by rfl, ?_⟩
  · unfold resolveShaderTextures
    rw [h]
    rfl
  · intro sn2 h2
    unfold resolveShaderTextures
    rw [h2]

theorem empty_shader_uses_own_name_witness :
    alook c6gm.shaders (toLower (s2b "textures/base/wall")) = some [] ∧
    resolveShaderTextures (s2b "textures/base/wall") c6gm [] =
      insertShaderFile c6gm (toLower (s2b "textures/base/wall"))
        (insertImplicit c6gm (toLower (s2b "textures/base/wall")) [] []) ∧
    resolveShaderTextures (s2b "textures/base/wall") c6gm [] =
      [s2b "scripts/base.shader", s2b "textures/base/wall.tga"] :=
  ⟨by decide,
   (empty_shader_uses_own_name (s2b "textures/base/wall") c6gm [] (by decide)).1,
   by decide⟩

theorem strLe_total : ∀ a b : Str, strLe a b = true ∨ strLe b a = true := by
  intro a
  induction a with
  | nil => intro b; exact Or.inl rfl
  | cons x as ih =>
    intro b
    cases b with
    | nil => exact Or.inr rfl
    | cons y bs =>
      rcases Nat.lt_trichotomy x y with hlt | heq | hgt
      · left
        simp [strLe, hlt]
      · subst heq
        rcases ih bs with h | h
        · left
          simp [strLe, h]
        · right
          simp [strLe, h]
      · right
        simp [strLe, hgt]

theorem strLe_trans : ∀ a b c : Str, strLe a b = true → strLe b c = true →
    strLe a c = true := by
  intro a
  induction a with
  | nil => intro b c _ _; rfl
  | cons x as ih =>
    intro b c hab hbc
    cases b with
    | nil => exact absurd hab (by simp [strLe])
    | cons y bs =>
      cases c with
      | nil => exact absurd hbc (by simp [strLe])
      | cons z cs =>
        simp only [strLe] at hab hbc ⊢
        split_ifs at hab hbc ⊢ with h1 h2 h3 h4 h5 h6
        all_goals try rfl
        all_goals try exact hab
        all_goals try exact hbc
        all_goals try omega
        · exact ih bs cs hab hbc
        all_goals omega

theorem strLe_antisymm : ∀ a b : Str, strLe a b = true → strLe b a = true → a = b := by
  intro a
  induction a with
  | nil =>
    intro b _ hba
    cases b with
    | nil => rfl
    | cons y bs => exact absurd hba (by simp [strLe])
  | cons x as ih =>
    intro b hab hba
    cases b with
    | nil => exact absurd hab (by simp [strLe])
    | cons y bs =>
      rcases Nat.lt_trichotomy x y with hlt | heqq | hgt
      · exfalso
        simp only [strLe] at hba
        rw [if_neg (by omega), if_neg (by omega)] at hba
        exact Bool.noConfusion hba
      · subst heqq
        simp [strLe] at hab hba
        rw [ih bs hab hba]
      · exfalso
        simp only [strLe] at hab
        rw [if_neg (by omega), if_neg (by omega)] at hab
        exact Bool.noConfusion hab

instance : IsTotal Str (fun a b => strLe a b = true) := ⟨strLe_total⟩

instance : IsTrans Str (fun a b => strLe a b = true) := ⟨fun a b c => strLe_trans a b c⟩

instance : IsAntisymm Str (fun a b => strLe a b = true) := ⟨strLe_antisymm⟩

theorem alook_eq_some_of_mem {α : Type} :
    ∀ {f : List (Str × α)} {k : Str} {v : α},
      (f.map (fun p => p.1)).Nodup → (k, v) ∈ f → alook f k = some v := by
  intro f
  induction f with
  | nil => intro k v _ hm; exact absurd hm (List.not_mem_nil _)
  | cons p rest ih =>
    intro k v hnd hm
    rcases List.mem_cons.mp hm with he | he
    · rw [← he]
      unfold alook
      simp [List.find?]
    · have hp : p.1 ≠ k := by
        intro hpk
        have hk : k ∈ rest.map (fun p => p.1) :=
          List.mem_map.mpr ⟨(k, v), he, rfl⟩
        rw [List.map_cons, List.nodup_cons] at hnd
        exact hnd.1 (hpk ▸ hk)
      unfold alook
      rw [List.find?_cons_of_neg _ (by simpa using hp)]
      exact ih (List.nodup_cons.mp (by simpa using hnd)).2 he

theorem alook_mem {α : Type} :
    ∀ {f : List (Str × α)} {k : Str} {v : α}, alook f k = some v → (k, v) ∈ f := by
  intro f
  induction f with
  | nil => intro k v h; exact absurd h (by simp [alook])
  | cons p rest ih =>
    intro k v h
    unfold alook at h
    cases hk : (p.1 == k) with
    | false =>
      rw [List.find?_cons_of_neg _ (by simp [hk])] at h
      exact List.mem_cons_of_mem p (ih h)
    | true =>
      rw [List.find?_cons_of_pos _ (by simp [hk])] at h
      have hv : p.2 = v := Option.some.inj h
      have hpk : p.1 = k := beq_iff_eq.mp hk
      have hkv : (k, v) = p := by rw [← hpk, ← hv]
      exact List.mem_cons.mpr (Or.inl hkv)

theorem alook_none_of_not_mem_keys {α : Type} :
    ∀ {f : List (Str × α)} {k : Str}, k ∉ f.map (fun p => p.1) → alook f k = none := by
  intro f
  induction f with
  | nil => intro k _; rfl
  | cons p rest ih =>
    intro k hk
    unfold alook
    rw [List.find?_cons_of_neg]
    · exact ih (fun hm => hk (List.mem_cons_of_mem _ hm))
    · simp only [beq_iff_eq]
      intro hpk
      exact hk (List.mem_map.mpr ⟨p, by simp, hpk⟩)

theorem alook_perm {α : Type} {f1 f2 : List (Str × α)}
    (hperm : f1.Perm f2) (hnd : (f1.map (fun p => p.1)).Nodup) (k : Str) :
    alook f1 k = alook f2 k := by
  have hkeys : (f1.map (fun p => p.1)).Perm (f2.map (fun p => p.1)) := hperm.map _
  have hnd2 : (f2.map (fun p => p.1)).Nodup := hkeys.nodup_iff.mp hnd
  cases h1 : alook f1 k with
  | some v =>
    exact (alook_eq_some_of_mem hnd2 (hperm.mem_iff.mp (alook_mem h1))).symm
  | none =>
    have hk : k ∉ f1.map (fun p => p.1) := by
      intro hm
      rcases List.mem_map.mp hm with ⟨p, hp, hpk⟩
      have := alook_eq_some_of_mem hnd (hpk ▸ (show (p.1, p.2) ∈ f1 by simpa using hp))
      rw [h1] at this
      exact Option.noConfusion this
    rw [alook_none_of_not_mem_keys (fun hm => hk (hkeys.mem_iff.mpr hm))]

/-- C8: archive writing is deterministic — two invocations of
`WritePk3ToWriter` on equal path-to-bytes maps (permuted association
lists with duplicate-free keys) emit identical entry sequences, with
entries in sorted path order and every entry using Deflate
compression.  The zip serialization of an entry list is a fixed
function of the list, so equal entry lists give byte-identical
archives. -/
theorem write_pk3_deterministic (f1 f2 : List (Str × List Nat))
    (h1 : (f1.map (fun f => f.1)).Nodup) (h2 : (f2.map (fun f => f.1)).Nodup)
    (hperm : f1.Perm f2) :
    writePk3Entries f1 = writePk3Entries f2 ∧
    List.Sorted (fun a b => strLe a b = true)
      ((writePk3Entries f1).map (fun e => e.name)) ∧
    (∀ e ∈ writePk3Entries f1, e.method = zipDeflate) := by
  have hkeys : (f1.map (fun f => f.1)).Perm (f2.map (fun f => f.1)) := hperm.map _
  have hsorted1 := List.sorted_insertionSort (fun a b => strLe a b = true)
    (f1.map (fun f => f.1))
  have hsorted2 := List.sorted_insertionSort (fun a b => strLe a b = true)
    (f2.map (fun f => f.1))
  have hp : (sortStrings (f1.map (fun f => f.1))).Perm
      (sortStrings (f2.map (fun f => f.1))) :=
    ((List.perm_insertionSort _ _).trans hkeys).trans (List.perm_insertionSort _ _).symm
  have hkeq : sortStrings (f1.map (fun f => f.1)) = sortStrings (f2.map (fun f => f.1)) :=
    List.eq_of_perm_of_sorted hp hsorted1 hsorted2
  refine ⟨?_, ?_, ?_⟩
  · unfold writePk3Entries
    rw [hkeq]
    exact List.map_congr_left (fun name _ => by rw [alook_perm hperm h1 name])
  · unfold writePk3Entries
    rw [List.map_map]
    have hid : List.map
        ((fun e => ZipEntry.name e) ∘ fun name =>
          ({ name := name, method := zipDeflate, content := (alook f1 name).getD [] } : ZipEntry))
        (sortStrings (f1.map (fun f => f.1))) = sortStrings (f1.map (fun f => f.1)) :=
      List.map_id _
    rw [hid]
    exact hsorted1
  · intro e he
    unfold writePk3Entries at he
    rcases List.mem_map.mp he with ⟨name, _, hne⟩
    rw [← hne]

theorem write_pk3_deterministic_witness :
    (c8f1.map (fun f => f.1)).Nodup ∧ (c8f2.map (fun f => f.1)).Nodup ∧ c8f1.Perm c8f2 ∧
    writePk3Entries c8f1 = writePk3Entries c8f2 ∧
    (∀ e ∈ writePk3Entries c8f1, e.method = zipDeflate) :=
  ⟨by decide, by decide, by decide,
   (write_pk3_deterministic c8f1 c8f2 (by decide) (by decide) (by decide)).1,
   (write_pk3_deterministic c8f1 c8f2 (by decide) (by decide) (by decide)).2.2⟩
